import Mathlib

/-!
Verification of the pngme chunk codec.

Shallow embedding of the Rust sources `src/chunk_type.rs`, `src/chunk.rs`
and (spec-modelled, the file `png.rs` being absent from the sources) the
`Png` container.  Bytes are modelled as `Nat` values; byte buffers as
`List Nat`.  Machine-integer casts are made explicit (`% 2^32` for
`as u32`).  Fallible operations return `Except PngError`.
-/

namespace Pngme

/-- The several error kinds of the program, gathered in one sum type
(the Rust code funnels all of them through `Box<dyn Error>`):
`ChunkTypeError::ByteLengthError`/`InvalidCharacter` from `chunk_type.rs`,
the `ChunkDecodingError` reasons and I/O `UnexpectedEof` from `chunk.rs`
(`truncated`), the UTF-8 failure of `data_as_string`, and the signature
failure of the container. -/
inductive PngError where
  | truncated : PngError
  | lengthTooLarge : Nat → PngError
  | wrongDataLength : Nat → Nat → PngError
  | badCrc : PngError
  | byteLengthError : Nat → PngError
  | invalidCharacter : PngError
  | nonUtf8Payload : PngError
  | badSignature : PngError
deriving DecidableEq, Repr

/-- `const MAXIMUM_LENGTH: u32 = (1 << 31) - 1` from `chunk.rs`. -/
def MAXIMUM_LENGTH : Nat := (1 <<< 31) - 1

/-- One bit step of CRC-32 with the reflected polynomial `0xEDB88320`
(the ISO-HDLC / zlib variant used by `Crc::<u32>::new(&CRC_32_ISO_HDLC)`). -/
def crc32Bit (c : Nat) : Nat :=
  if c % 2 = 1 then (c / 2) ^^^ 0xEDB88320 else c / 2

/-- Feed one byte into the running CRC-32 state. -/
def crc32Byte (c b : Nat) : Nat :=
  crc32Bit (crc32Bit (crc32Bit (crc32Bit
    (crc32Bit (crc32Bit (crc32Bit (crc32Bit (c ^^^ b))))))))

/-- CRC-32, ISO-HDLC variant: initial value all-ones, reflected polynomial
`0xEDB88320`, output XORed with all-ones.  This is the checksum the code
computes with the `crc` crate's `CRC_32_ISO_HDLC` parameters. -/
def crc32 (bs : List Nat) : Nat :=
  (bs.foldl crc32Byte 0xFFFFFFFF) ^^^ 0xFFFFFFFF

/-- `ChunkType` from `chunk_type.rs`: `raw_bytes: [u8; 4]`, kept as four
explicit byte fields to mirror the fixed-arity array. -/
structure ChunkType where
  b0 : Nat
  b1 : Nat
  b2 : Nat
  b3 : Nat
deriving DecidableEq, Repr

/-- `ChunkType::bytes`: the raw 4-byte array, as a list. -/
def ChunkType.bytes (t : ChunkType) : List Nat := [t.b0, t.b1, t.b2, t.b3]

/-- `u8::is_ascii_alphabetic`: `A`–`Z` or `a`–`z`. -/
def isAsciiAlphabetic (b : Nat) : Bool :=
  (65 ≤ b && b ≤ 90) || (97 ≤ b && b ≤ 122)

/-- `impl TryFrom<[u8; 4]> for ChunkType`: always succeeds, stores the four
bytes with no validation whatsoever. -/
def ChunkType.tryFromBytes (a b c d : Nat) : Except PngError ChunkType :=
  .ok ⟨a, b, c, d⟩

/-- `impl FromStr for ChunkType` from `chunk_type.rs`: the input's UTF-8
bytes must number exactly 4 (`ByteLengthError` otherwise, carrying the
actual length) and each must be ASCII alphabetic (`InvalidCharacter`
otherwise). -/
def ChunkType.fromStr (s : List Nat) : Except PngError ChunkType :=
  match s with
  | [a, b, c, d] =>
    if [a, b, c, d].all isAsciiAlphabetic then .ok ⟨a, b, c, d⟩
    else .error .invalidCharacter
  | _ => .error (.byteLengthError s.length)

/-- `ChunkType::is_critical`: bit 5 (`1 << 5`) of byte 0 is clear. -/
def ChunkType.is_critical (t : ChunkType) : Bool :=
  t.b0 &&& (1 <<< 5) == 0

/-- `ChunkType::is_public`: bit 5 of byte 1 is clear. -/
def ChunkType.is_public (t : ChunkType) : Bool :=
  t.b1 &&& (1 <<< 5) == 0

/-- `ChunkType::is_reserved_bit_valid`: bit 5 of byte 2 is clear. -/
def ChunkType.is_reserved_bit_valid (t : ChunkType) : Bool :=
  t.b2 &&& (1 <<< 5) == 0

/-- `ChunkType::is_safe_to_copy`: bit 5 of byte 3 is set. -/
def ChunkType.is_safe_to_copy (t : ChunkType) : Bool :=
  t.b3 &&& (1 <<< 5) != 0

/-- `Chunk` from `chunk.rs`: declared length, type tag, payload, checksum. -/
structure Chunk where
  length : Nat
  chunk_type : ChunkType
  chunk_data : List Nat
  crc : Nat
deriving DecidableEq, Repr

/-- `u32::from_be_bytes` on four bytes. -/
def u32FromBe (b0 b1 b2 b3 : Nat) : Nat :=
  ((b0 * 256 + b1) * 256 + b2) * 256 + b3

/-- `u32::to_be_bytes` (the value is a `u32`, i.e. below `2^32`). -/
def u32ToBeBytes (n : Nat) : List Nat :=
  [n / 2 ^ 24 % 256, n / 2 ^ 16 % 256, n / 2 ^ 8 % 256, n % 256]

/-- Big-endian value of a byte list (statement-level helper). -/
def beNat (l : List Nat) : Nat := l.foldl (fun acc b => acc * 256 + b) 0

/-- `read_exact` into a 4-byte buffer from a `BufReader` over a slice:
yields the four bytes and the unconsumed remainder, or `UnexpectedEof`
when fewer than 4 bytes remain. -/
def read4 (bs : List Nat) : Except PngError ((Nat × Nat × Nat × Nat) × List Nat) :=
  match bs with
  | b0 :: b1 :: b2 :: b3 :: rest => .ok ((b0, b1, b2, b3), rest)
  | _ => .error .truncated

/-- `read_exact` into an `n`-byte buffer: the first `n` bytes and the
remainder, or `UnexpectedEof` when fewer than `n` remain. -/
def readExact (n : Nat) (bs : List Nat) : Except PngError (List Nat × List Nat) :=
  if bs.length < n then .error .truncated else .ok (bs.take n, bs.drop n)

/-- `impl TryFrom<&[u8]> for Chunk` from `chunk.rs`, with the reader's
final position made explicit: reads a 4-byte big-endian length, rejects
lengths above `MAXIMUM_LENGTH`, reads the 4 type bytes (accepted via the
unvalidating `TryFrom<[u8; 4]>`), reads `length` payload bytes, re-checks
the buffer length (dead branch: `read_exact` already guarantees it), reads
the 4-byte big-endian checksum, recomputes CRC-32 over type ++ payload and
compares.  Returns the chunk and the unconsumed remainder of the input. -/
def decodeRaw (bs : List Nat) : Except PngError (Chunk × List Nat) :=
  match read4 bs with
  | .error e => .error e
  | .ok ((l0, l1, l2, l3), r1) =>
    let length := u32FromBe l0 l1 l2 l3
    if length > MAXIMUM_LENGTH then .error (.lengthTooLarge length)
    else match read4 r1 with
      | .error e => .error e
      | .ok ((t0, t1, t2, t3), r2) =>
        match ChunkType.tryFromBytes t0 t1 t2 t3 with
        | .error e => .error e
        | .ok chunk_type =>
          match readExact length r2 with
          | .error e => .error e
          | .ok (chunk_data, r3) =>
            if chunk_data.length ≠ length then
              .error (.wrongDataLength chunk_data.length length)
            else match read4 r3 with
              | .error e => .error e
              | .ok ((c0, c1, c2, c3), r4) =>
                let provided_crc := u32FromBe c0 c1 c2 c3
                let crc := crc32 (chunk_type.bytes ++ chunk_data)
                if provided_crc ≠ crc then .error .badCrc
                else .ok (⟨length, chunk_type, chunk_data, crc⟩, r4)

/-- `Chunk::try_from(&[u8])` proper: the decoded chunk, the reader
(and any trailing bytes) being dropped. -/
def Chunk.tryFrom (bs : List Nat) : Except PngError Chunk :=
  (decodeRaw bs).map Prod.fst

/-- `Chunk::new`: computes the CRC-32 over type bytes ++ data and stores
`data.len() as u32` (the Rust cast truncates modulo `2^32`). -/
def Chunk.new (t : ChunkType) (data : List Nat) : Chunk :=
  ⟨data.length % 2 ^ 32, t, data, crc32 (t.bytes ++ data)⟩

/-- `Chunk::as_bytes`: big-endian length, type bytes, payload, big-endian
checksum. -/
def Chunk.asBytes (c : Chunk) : List Nat :=
  u32ToBeBytes c.length ++ c.chunk_type.bytes ++ c.chunk_data ++ u32ToBeBytes c.crc

/-- Byte ranges `0x80..=0xBF`: a UTF-8 continuation byte. -/
def isUtf8Cont (b : Nat) : Bool := 0x80 ≤ b && b ≤ 0xBF

mutual

/-- `std::str::from_utf8`'s validation (`run_utf8_validation` in Rust core),
which `String::from_utf8` delegates to: ASCII bytes stand alone; `0xC2..=0xDF`
opens a 2-byte sequence; `0xE0..=0xEF` a 3-byte sequence whose first
continuation is range-restricted for `0xE0` (no overlong) and `0xED` (no
surrogates); `0xF0..=0xF4` a 4-byte sequence range-restricted for `0xF0`
(no overlong) and `0xF4` (at most `U+10FFFF`); everything else is invalid. -/
def utf8Valid : List Nat → Bool
  | [] => true
  | b :: rest =>
    if b ≤ 0x7F then utf8Valid rest
    else if 0xC2 ≤ b && b ≤ 0xDF then utf8ValidTail1 rest
    else if 0xE0 ≤ b && b ≤ 0xEF then utf8ValidTail2 b rest
    else if 0xF0 ≤ b && b ≤ 0xF4 then utf8ValidTail3 b rest
    else false

/-- Continuation bytes of a 2-byte sequence. -/
def utf8ValidTail1 : List Nat → Bool
  | c1 :: r => isUtf8Cont c1 && utf8Valid r
  | [] => false

/-- Continuation bytes of a 3-byte sequence opened by `b`. -/
def utf8ValidTail2 : Nat → List Nat → Bool
  | b, c1 :: c2 :: r =>
    (if b = 0xE0 then 0xA0 ≤ c1 && c1 ≤ 0xBF
     else if b = 0xED then 0x80 ≤ c1 && c1 ≤ 0x9F
     else isUtf8Cont c1) && isUtf8Cont c2 && utf8Valid r
  | _, _ => false

/-- Continuation bytes of a 4-byte sequence opened by `b`. -/
def utf8ValidTail3 : Nat → List Nat → Bool
  | b, c1 :: c2 :: c3 :: r =>
    (if b = 0xF0 then 0x90 ≤ c1 && c1 ≤ 0xBF
     else if b = 0xF4 then 0x80 ≤ c1 && c1 ≤ 0x8F
     else isUtf8Cont c1) && isUtf8Cont c2 && isUtf8Cont c3 && utf8Valid r
  | _, _ => false

end

/-- `Chunk::data_as_string`: `String::from_utf8(chunk_data)`, succeeding
exactly when the payload passes UTF-8 validation (the bytes are then
returned unchanged — Rust strings are their UTF-8 bytes). -/
def Chunk.data_as_string (c : Chunk) : Except PngError (List Nat) :=
  if utf8Valid c.chunk_data then .ok c.chunk_data else .error .nonUtf8Payload

/-- `impl Display for Chunk`: `write!(f, "{}\t{}", chunk_type,
data_as_string().unwrap())`.  `none` models the panic of the `.unwrap()`
when `data_as_string` fails; on success the rendered bytes are the type
tag's raw bytes, a tab (byte 9), and the payload. -/
def Chunk.displayFmt (c : Chunk) : Option (List Nat) :=
  match c.data_as_string with
  | .ok s => some (c.chunk_type.bytes ++ [9] ++ s)
  | .error _ => none

/-- A Unicode scalar value: below `0x110000` and not a surrogate.  This is
the specification-side notion of what UTF-8 encodes, used to judge the
validator. -/
def Utf8Scalar (cp : Nat) : Prop := cp < 0x110000 ∧ ¬(0xD800 ≤ cp ∧ cp ≤ 0xDFFF)

instance (cp : Nat) : Decidable (Utf8Scalar cp) := by
  unfold Utf8Scalar; infer_instance

/-- Standard UTF-8 encoding of one scalar value (specification side,
written arithmetically). -/
def utf8EncodeChar (cp : Nat) : List Nat :=
  if cp < 0x80 then [cp]
  else if cp < 0x800 then [0xC0 + cp / 64, 0x80 + cp % 64]
  else if cp < 0x10000 then [0xE0 + cp / 4096, 0x80 + cp / 64 % 64, 0x80 + cp % 64]
  else [0xF0 + cp / 262144, 0x80 + cp / 4096 % 64, 0x80 + cp / 64 % 64, 0x80 + cp % 64]

/-- Standard UTF-8 encoding of a scalar-value sequence. -/
def utf8Encode (cps : List Nat) : List Nat := (cps.map utf8EncodeChar).flatten

/-- Modelled from the spec: the fixed 8-byte PNG signature
`89 50 4E 47 0D 0A 1A 0A` of the `Png` container (the container source
file `png.rs` is declared by `main.rs` but absent from the sources). -/
def pngSignature : List Nat := [137, 80, 78, 71, 13, 10, 26, 10]

/-- Modelled from the spec: the `Png` container holds an ordered chunk
sequence (`png.rs` is absent from the sources). -/
structure Png where
  chunks : List Chunk
deriving DecidableEq, Repr

/-- Modelled from the spec: parsing "repeatedly decodes chunks from the
remaining bytes by delegating to Chunk.decode, each call consuming exactly
the bytes that chunk's frame declares (`12 + length`), until the buffer is
exhausted"; any chunk failure aborts the parse (`png.rs` is absent from
the sources). -/
def parseChunks (bs : List Nat) : Except PngError (List Chunk) :=
  if h : bs = [] then .ok []
  else
    match Chunk.tryFrom bs with
    | .error e => .error e
    | .ok c =>
      match parseChunks (bs.drop (12 + c.length)) with
      | .error e => .error e
      | .ok cs => .ok (c :: cs)
termination_by bs.length
decreasing_by
  simp only [List.length_drop]
  have hp : 0 < bs.length := List.length_pos.mpr h
  omega

/-- Modelled from the spec: `parse` validates that the first 8 bytes equal
the fixed signature (`BadSignature` otherwise) and decodes the chunk
sequence from the remaining bytes (`png.rs` is absent from the sources). -/
def Png.parse (bs : List Nat) : Except PngError Png :=
  if bs.take 8 = pngSignature then
    match parseChunks (bs.drop 8) with
    | .error e => .error e
    | .ok cs => .ok ⟨cs⟩
  else .error .badSignature

/-- Modelled from the spec: `encode` is the signature bytes followed by
each chunk's encoding, in stored order (`png.rs` is absent from the
sources). -/
def Png.encode (p : Png) : List Nat :=
  pngSignature ++ (p.chunks.map Chunk.asBytes).flatten

/-- The UTF-8 bytes of `"This is where your secret message will be!"`,
the payload of the repository's known test vector. -/
def secretMessage : List Nat :=
  [84, 104, 105, 115, 32, 105, 115, 32, 119, 104, 101, 114, 101, 32, 121,
   111, 117, 114, 32, 115, 101, 99, 114, 101, 116, 32, 109, 101, 115, 115,
   97, 103, 101, 32, 119, 105, 108, 108, 32, 98, 101, 33]

/-- The chunk type `"RuSt"` (bytes `82, 117, 83, 116`). -/
def rustType : ChunkType := ⟨82, 117, 83, 116⟩

/-- The chunk of the repository's test vector. -/
def rustChunk : Chunk := ⟨42, rustType, secretMessage, 2882656334⟩

/-- The well-formed frame of the test vector. -/
def rustFrame : List Nat :=
  u32ToBeBytes 42 ++ rustType.bytes ++ secretMessage ++ u32ToBeBytes 2882656334

/-- The test vector's frame with its checksum field corrupted to
`2882656333`. -/
def rustCorruptFrame : List Nat :=
  u32ToBeBytes 42 ++ rustType.bytes ++ secretMessage ++ u32ToBeBytes 2882656333

end Pngme

deriving instance DecidableEq for Except

namespace Pngme

/-! ### Arithmetic and reader helper lemmas -/

theorem beNat4 (a b c d : Nat) : beNat [a, b, c, d] = u32FromBe a b c d := by
  simp [beNat, u32FromBe]

theorem u32FromBe_lt {a b c d : Nat} (ha : a < 256) (hb : b < 256) (hc : c < 256)
    (hd : d < 256) : u32FromBe a b c d < 2 ^ 32 := by
  simp only [u32FromBe]; omega

theorem u32ToBeBytes_fromBe {a b c d : Nat} (ha : a < 256) (hb : b < 256) (hc : c < 256)
    (hd : d < 256) : u32ToBeBytes (u32FromBe a b c d) = [a, b, c, d] := by
  simp only [u32ToBeBytes, u32FromBe, List.cons.injEq, and_true]
  refine ⟨?_, ?_, ?_, ?_⟩ <;> omega

theorem u32FromBe_toBe {n : Nat} (h : n < 2 ^ 32) :
    u32FromBe (n / 2 ^ 24 % 256) (n / 2 ^ 16 % 256) (n / 2 ^ 8 % 256) (n % 256) = n := by
  simp only [u32FromBe]; omega

theorem crc32Bit_lt {c : Nat} (h : c < 2 ^ 32) : crc32Bit c < 2 ^ 32 := by
  unfold crc32Bit
  split
  · exact Nat.xor_lt_two_pow (by omega) (by norm_num)
  · omega

theorem crc32Byte_lt {c b : Nat} (hc : c < 2 ^ 32) (hb : b < 256) :
    crc32Byte c b < 2 ^ 32 := by
  unfold crc32Byte
  have h0 : c ^^^ b < 2 ^ 32 := Nat.xor_lt_two_pow hc (by omega)
  exact crc32Bit_lt (crc32Bit_lt (crc32Bit_lt (crc32Bit_lt (crc32Bit_lt (crc32Bit_lt
    (crc32Bit_lt (crc32Bit_lt h0)))))))

theorem crc32_foldl_lt : ∀ (bs : List Nat) (c : Nat), c < 2 ^ 32 → (∀ b ∈ bs, b < 256) →
    bs.foldl crc32Byte c < 2 ^ 32
  | [], _, hc, _ => hc
  | b :: bs, c, hc, h =>
    crc32_foldl_lt bs _ (crc32Byte_lt hc (h b (by simp)))
      (fun x hx => h x (by simp [hx]))

theorem crc32_lt {bs : List Nat} (h : ∀ b ∈ bs, b < 256) : crc32 bs < 2 ^ 32 := by
  unfold crc32
  exact Nat.xor_lt_two_pow (crc32_foldl_lt bs _ (by norm_num) h) (by norm_num)

theorem read4_eq_ok {bs : List Nat} {a b c d : Nat} {r : List Nat} :
    read4 bs = .ok ((a, b, c, d), r) ↔ bs = a :: b :: c :: d :: r := by
  rcases bs with _ | ⟨x0, _ | ⟨x1, _ | ⟨x2, _ | ⟨x3, r'⟩⟩⟩⟩ <;>
    simp [read4, and_assoc]

theorem read4_err {bs : List Nat} (h : bs.length < 4) : read4 bs = .error .truncated := by
  rcases bs with _ | ⟨x0, _ | ⟨x1, _ | ⟨x2, _ | ⟨x3, r'⟩⟩⟩⟩ <;> simp_all [read4] <;> omega

/-! ### Evaluation of the decoder on an explicitly framed input -/

/-- Evaluating `decodeRaw` on a complete frame with a consistent declared
length: the outcome depends only on whether the embedded checksum matches
the recomputed CRC-32. -/
theorem decodeRaw_frame (l0 l1 l2 l3 t0 t1 t2 t3 c0 c1 c2 c3 : Nat) (d junk : List Nat)
    (hd : d.length = u32FromBe l0 l1 l2 l3)
    (hmax : u32FromBe l0 l1 l2 l3 ≤ MAXIMUM_LENGTH) :
    decodeRaw (l0 :: l1 :: l2 :: l3 :: t0 :: t1 :: t2 :: t3 ::
        (d ++ c0 :: c1 :: c2 :: c3 :: junk)) =
      if u32FromBe c0 c1 c2 c3 = crc32 ([t0, t1, t2, t3] ++ d) then
        .ok (⟨u32FromBe l0 l1 l2 l3, ⟨t0, t1, t2, t3⟩, d, crc32 ([t0, t1, t2, t3] ++ d)⟩, junk)
      else .error .badCrc := by
  unfold decodeRaw
  simp only [read4, ChunkType.tryFromBytes]
  rw [← hd] at hmax ⊢
  rw [if_neg (by omega : ¬ d.length > MAXIMUM_LENGTH)]
  rw [readExact, if_neg (by simp only [List.length_append, List.length_cons]; omega)]
  simp only [List.take_left, List.drop_left, ChunkType.bytes, ne_eq,
    not_true_eq_false, if_false, ite_not]

end Pngme

namespace Pngme

/-- What a successful decode guarantees: the fields of the chunk are
exactly the decoded leading fields of the input, the input held at least
`12 + length` bytes, and exactly `12 + length` bytes were consumed. -/
theorem decodeRaw_ok_spec {bs : List Nat} {c : Chunk} {rest : List Nat}
    (h : decodeRaw bs = .ok (c, rest)) :
    bs.length = 12 + c.length + rest.length ∧
    c.length = beNat (bs.take 4) ∧
    c.chunk_type.bytes = (bs.drop 4).take 4 ∧
    c.chunk_data = (bs.drop 8).take c.length ∧
    c.chunk_data.length = c.length ∧
    c.crc = crc32 (c.chunk_type.bytes ++ c.chunk_data) ∧
    beNat ((bs.drop (8 + c.length)).take 4) = c.crc ∧
    c.length ≤ MAXIMUM_LENGTH ∧
    rest = bs.drop (12 + c.length) := by
  unfold decodeRaw at h
  cases hr1 : read4 bs with
  | error e => rw [hr1] at h; simp at h
  | ok v =>
  obtain ⟨⟨l0, l1, l2, l3⟩, r1⟩ := v
  rw [hr1] at h
  replace hr1 := read4_eq_ok.mp hr1
  simp only at h
  by_cases hmax : u32FromBe l0 l1 l2 l3 > MAXIMUM_LENGTH
  · rw [if_pos hmax] at h; simp at h
  rw [if_neg hmax] at h
  cases hr2 : read4 r1 with
  | error e => rw [hr2] at h; simp at h
  | ok v2 =>
  obtain ⟨⟨t0, t1, t2, t3⟩, r2⟩ := v2
  rw [hr2] at h
  replace hr2 := read4_eq_ok.mp hr2
  simp only [ChunkType.tryFromBytes] at h
  rw [readExact] at h
  by_cases hlen : r2.length < u32FromBe l0 l1 l2 l3
  · rw [if_pos hlen] at h; simp at h
  rw [if_neg hlen] at h
  simp only at h
  have htk : (r2.take (u32FromBe l0 l1 l2 l3)).length = u32FromBe l0 l1 l2 l3 := by
    simp [List.length_take]; omega
  rw [if_neg (by simp [htk] :
    ¬ ((r2.take (u32FromBe l0 l1 l2 l3)).length ≠ u32FromBe l0 l1 l2 l3))] at h
  cases hr3 : read4 (r2.drop (u32FromBe l0 l1 l2 l3)) with
  | error e => rw [hr3] at h; simp at h
  | ok v3 =>
  obtain ⟨⟨c0, c1, c2, c3⟩, r4⟩ := v3
  rw [hr3] at h
  replace hr3 := read4_eq_ok.mp hr3
  simp only at h
  by_cases hcrc : u32FromBe c0 c1 c2 c3 ≠
      crc32 ((ChunkType.mk t0 t1 t2 t3).bytes ++ r2.take (u32FromBe l0 l1 l2 l3))
  · rw [if_pos hcrc] at h; simp at h
  rw [if_neg hcrc] at h
  push_neg at hcrc
  simp only [Except.ok.injEq, Prod.mk.injEq] at h
  obtain ⟨hc, hrest⟩ := h
  subst hr1
  subst hr2
  subst hc
  subst hrest
  have hdlen : (r2.drop (u32FromBe l0 l1 l2 l3)).length = 4 + r4.length := by
    rw [hr3]; simp; omega
  simp only [List.length_drop] at hdlen
  refine ⟨?_, ?_, ?_, ?_, ?_, ?_, ?_, ?_, ?_⟩
  · simp only [List.length_cons]
    omega
  · exact (beNat4 l0 l1 l2 l3).symm
  · rfl
  · rfl
  · exact htk
  · rfl
  · show beNat (((l0::l1::l2::l3::t0::t1::t2::t3::r2).drop
        (8 + u32FromBe l0 l1 l2 l3)).take 4) = _
    rw [← List.drop_drop]
    show beNat ((r2.drop (u32FromBe l0 l1 l2 l3)).take 4) = _
    rw [hr3]
    show beNat [c0, c1, c2, c3] = _
    rw [beNat4, hcrc]
  · show u32FromBe l0 l1 l2 l3 ≤ MAXIMUM_LENGTH
    omega
  · show r4 = (l0::l1::l2::l3::t0::t1::t2::t3::r2).drop (12 + u32FromBe l0 l1 l2 l3)
    rw [← List.drop_drop]
    show r4 = List.drop (u32FromBe l0 l1 l2 l3) (List.drop 4 r2)
    rw [List.drop_drop, Nat.add_comm, ← List.drop_drop, hr3]
    rfl

end Pngme
namespace Pngme

/-- C2: chunk decoding reads a 4-byte big-endian length, 4 unvalidated type
bytes, `length` payload bytes and a 4-byte big-endian checksum, in that
order, consuming exactly `12 + length` bytes; on success the chunk's
fields are exactly the decoded fields, and arbitrary type bytes never by
themselves cause failure. -/
theorem chunk_decode_fields :
    (∀ (bs : List Nat) (c : Chunk) (rest : List Nat), decodeRaw bs = .ok (c, rest) →
      12 + c.length ≤ bs.length ∧
      c.length = beNat (bs.take 4) ∧
      c.chunk_type.bytes = (bs.drop 4).take 4 ∧
      c.chunk_data = (bs.drop 8).take c.length ∧
      c.crc = beNat ((bs.drop (8 + c.length)).take 4) ∧
      rest = bs.drop (12 + c.length)) ∧
    (∀ t0 t1 t2 t3 : Nat, ChunkType.tryFromBytes t0 t1 t2 t3 = .ok ⟨t0, t1, t2, t3⟩) := by
  constructor
  · intro bs c rest h
    obtain ⟨h1, h2, h3, h4, h5, h6, h7, h8, h9⟩ := decodeRaw_ok_spec h
    exact ⟨by omega, h2, h3, h4, h7.symm, h9⟩
  · intro t0 t1 t2 t3
    rfl

set_option maxRecDepth 10000 in
theorem chunk_decode_fields_witness :
    12 + rustChunk.length ≤ rustFrame.length ∧
    rustChunk.length = beNat (rustFrame.take 4) ∧
    rustChunk.chunk_type.bytes = (rustFrame.drop 4).take 4 ∧
    rustChunk.chunk_data = (rustFrame.drop 8).take rustChunk.length ∧
    rustChunk.crc = beNat ((rustFrame.drop (8 + rustChunk.length)).take 4) ∧
    ([] : List Nat) = rustFrame.drop (12 + rustChunk.length) :=
  chunk_decode_fields.1 rustFrame rustChunk [] (by decide)

set_option maxRecDepth 10000 in
/-- C3: on a complete frame with a valid declared length, decoding
succeeds exactly when the embedded big-endian checksum equals the CRC-32
(ISO-HDLC) of type bytes ++ payload, and fails with the checksum-mismatch
error otherwise; the `"RuSt"` frame with checksum field `2882656333`
fails decoding. -/
theorem chunk_decode_checksum :
    (∀ (l0 l1 l2 l3 t0 t1 t2 t3 c0 c1 c2 c3 : Nat) (d junk : List Nat),
      d.length = u32FromBe l0 l1 l2 l3 →
      u32FromBe l0 l1 l2 l3 ≤ MAXIMUM_LENGTH →
      ((∃ c rest, decodeRaw (l0 :: l1 :: l2 :: l3 :: t0 :: t1 :: t2 :: t3 ::
          (d ++ c0 :: c1 :: c2 :: c3 :: junk)) = .ok (c, rest)) ↔
        u32FromBe c0 c1 c2 c3 = crc32 ([t0, t1, t2, t3] ++ d)) ∧
      (u32FromBe c0 c1 c2 c3 ≠ crc32 ([t0, t1, t2, t3] ++ d) →
        decodeRaw (l0 :: l1 :: l2 :: l3 :: t0 :: t1 :: t2 :: t3 ::
          (d ++ c0 :: c1 :: c2 :: c3 :: junk)) = .error .badCrc)) ∧
    Chunk.tryFrom rustCorruptFrame = .error .badCrc := by
  constructor
  · intro l0 l1 l2 l3 t0 t1 t2 t3 c0 c1 c2 c3 d junk hd hmax
    rw [decodeRaw_frame l0 l1 l2 l3 t0 t1 t2 t3 c0 c1 c2 c3 d junk hd hmax]
    constructor
    · constructor
      · rintro ⟨c, rest, hc⟩
        by_contra hne
        rw [if_neg hne] at hc
        simp at hc
      · intro he
        rw [if_pos he]
        exact ⟨_, _, rfl⟩
    · intro hne
      rw [if_neg hne]
  · decide

set_option maxRecDepth 10000 in
theorem chunk_decode_checksum_witness :
    ((∃ c rest, decodeRaw ((0 : Nat) :: 0 :: 0 :: 0 :: 82 :: 117 :: 83 :: 116 ::
        ([] ++ 150 :: 180 :: 206 :: 61 :: [])) = .ok (c, rest)) ↔
      u32FromBe 150 180 206 61 = crc32 ([82, 117, 83, 116] ++ [])) ∧
    (u32FromBe 150 180 206 61 ≠ crc32 ([82, 117, 83, 116] ++ []) →
      decodeRaw ((0 : Nat) :: 0 :: 0 :: 0 :: 82 :: 117 :: 83 :: 116 ::
        ([] ++ 150 :: 180 :: 206 :: 61 :: [])) = .error .badCrc) :=
  chunk_decode_checksum.1 0 0 0 0 82 117 83 116 150 180 206 61 [] []
    (by decide) (by decide)

/-- C6: a declared big-endian length above `2^31 - 1` makes decoding fail
with the length-too-large error, whatever bytes follow the length field
(they are never examined). -/
theorem decode_rejects_large_length (l0 l1 l2 l3 : Nat) (rest : List Nat)
    (h : u32FromBe l0 l1 l2 l3 > MAXIMUM_LENGTH) :
    decodeRaw (l0 :: l1 :: l2 :: l3 :: rest) =
      .error (.lengthTooLarge (u32FromBe l0 l1 l2 l3)) := by
  unfold decodeRaw
  simp only [read4]
  rw [if_pos h]

theorem decode_rejects_large_length_witness :
    decodeRaw [255, 255, 255, 255] =
      .error (.lengthTooLarge (u32FromBe 255 255 255 255)) :=
  decode_rejects_large_length 255 255 255 255 [] (by decide)

end Pngme
namespace Pngme

/-- C7: decoding fails with the truncation error whenever fewer bytes
remain than the frame requires at any read step: fewer than 4 bytes for
the length, or fewer than `12 + n` bytes in total for a valid declared
length `n`. -/
theorem decode_rejects_truncated (bs : List Nat) :
    (bs.length < 4 → decodeRaw bs = .error .truncated) ∧
    (4 ≤ bs.length → beNat (bs.take 4) ≤ MAXIMUM_LENGTH →
      bs.length < 12 + beNat (bs.take 4) → decodeRaw bs = .error .truncated) := by
  constructor
  · intro h
    unfold decodeRaw
    rw [read4_err h]
  · intro h4 hmax hshort
    rcases bs with _ | ⟨l0, _ | ⟨l1, _ | ⟨l2, _ | ⟨l3, r1⟩⟩⟩⟩ <;>
      simp only [List.length_nil, List.length_cons] at h4 hshort <;>
      try omega
    have hbe : beNat ((l0 :: l1 :: l2 :: l3 :: r1).take 4) = u32FromBe l0 l1 l2 l3 := by
      rw [show (l0 :: l1 :: l2 :: l3 :: r1).take 4 = [l0, l1, l2, l3] from rfl, beNat4]
    rw [hbe] at hmax hshort
    unfold decodeRaw
    rw [show read4 (l0 :: l1 :: l2 :: l3 :: r1) = .ok ((l0, l1, l2, l3), r1) from rfl]
    dsimp only
    rw [if_neg (by omega : ¬ u32FromBe l0 l1 l2 l3 > MAXIMUM_LENGTH)]
    rcases r1 with _ | ⟨t0, _ | ⟨t1, _ | ⟨t2, _ | ⟨t3, r2⟩⟩⟩⟩
    · rfl
    · rfl
    · rfl
    · rfl
    simp only [List.length_cons] at hshort
    rw [show read4 (t0 :: t1 :: t2 :: t3 :: r2) = .ok ((t0, t1, t2, t3), r2) from rfl]
    dsimp only [ChunkType.tryFromBytes]
    rw [readExact]
    by_cases hlen : r2.length < u32FromBe l0 l1 l2 l3
    · rw [if_pos hlen]
    rw [if_neg hlen]
    dsimp only
    have htk : (r2.take (u32FromBe l0 l1 l2 l3)).length = u32FromBe l0 l1 l2 l3 := by
      simp [List.length_take]; omega
    rw [if_neg (by simp [htk] :
      ¬ ((r2.take (u32FromBe l0 l1 l2 l3)).length ≠ u32FromBe l0 l1 l2 l3))]
    rw [read4_err (by simp only [List.length_drop]; omega :
      (r2.drop (u32FromBe l0 l1 l2 l3)).length < 4)]

theorem decode_rejects_truncated_witness :
    4 ≤ ([0, 0, 0, 5] : List Nat).length ∧
    beNat (([0, 0, 0, 5] : List Nat).take 4) ≤ MAXIMUM_LENGTH ∧
    ([0, 0, 0, 5] : List Nat).length < 12 + beNat (([0, 0, 0, 5] : List Nat).take 4) ∧
    decodeRaw [0, 0, 0, 5] = .error .truncated :=
  ⟨by decide, by decide, by decide,
    (decode_rejects_truncated [0, 0, 0, 5]).2 (by decide) (by decide) (by decide)⟩

/-- C5: text-based chunk-type construction accepts exactly the 4-byte
all-ASCII-alphabetic inputs; `"RuSt"` succeeds, `"Rus"` fails with the
invalid-length kind (carrying 3), `"Ru1t"` fails with the
invalid-character kind; on success the stored bytes equal the input. -/
theorem fromStr_accepts_iff :
    (∀ s : List Nat, (∃ t, ChunkType.fromStr s = .ok t) ↔
      (s.length = 4 ∧ s.all isAsciiAlphabetic = true)) ∧
    (∀ (s : List Nat) (t : ChunkType), ChunkType.fromStr s = .ok t → t.bytes = s) ∧
    ChunkType.fromStr [82, 117, 83, 116] = .ok ⟨82, 117, 83, 116⟩ ∧
    ChunkType.fromStr [82, 117, 115] = .error (.byteLengthError 3) ∧
    ChunkType.fromStr [82, 117, 49, 116] = .error .invalidCharacter := by
  refine ⟨?_, ?_, by decide, by decide, by decide⟩
  · intro s
    rcases s with _ | ⟨a, _ | ⟨b, _ | ⟨c, _ | ⟨d, _ | ⟨e, r⟩⟩⟩⟩⟩ <;>
      simp [ChunkType.fromStr]
    split
    · simp_all
    · simp_all
  · intro s t h
    rcases s with _ | ⟨a, _ | ⟨b, _ | ⟨c, _ | ⟨d, _ | ⟨e, r⟩⟩⟩⟩⟩ <;>
      simp [ChunkType.fromStr] at h
    split at h
    · obtain ⟨rfl⟩ := h
      rfl
    · simp at h

theorem fromStr_accepts_iff_witness :
    (⟨82, 117, 83, 116⟩ : ChunkType).bytes = [82, 117, 83, 116] :=
  fromStr_accepts_iff.2.1 [82, 117, 83, 116] ⟨82, 117, 83, 116⟩ (by decide)

theorem and_bit5_eq (b : Nat) : (b &&& (1 <<< 5) == 0) = !(b.testBit 5) := by
  rw [show (1 <<< 5 : Nat) = 2 ^ 5 from rfl, Nat.and_two_pow]
  cases hb : b.testBit 5 <;> simp

/-- C8: the four derived predicates are pure tests of bit 5 (`0x20`) of
the respective byte: critical/public/reserved-bit-valid iff clear on
bytes 0/1/2, safe-to-copy iff set on byte 3; with the stated concrete
values on `"RuSt"` and `"Rust"`. -/
theorem chunk_type_bit_flags :
    (∀ t : ChunkType,
      t.is_critical = !(t.b0.testBit 5) ∧
      t.is_public = !(t.b1.testBit 5) ∧
      t.is_reserved_bit_valid = !(t.b2.testBit 5) ∧
      t.is_safe_to_copy = (t.b3.testBit 5)) ∧
    (rustType.is_critical = true ∧ rustType.is_public = false ∧
      rustType.is_reserved_bit_valid = true ∧ rustType.is_safe_to_copy = true) ∧
    (ChunkType.mk 82 117 115 116).is_reserved_bit_valid = false := by
  refine ⟨?_, by decide, by decide⟩
  intro t
  refine ⟨?_, ?_, ?_, ?_⟩
  · exact and_bit5_eq t.b0
  · exact and_bit5_eq t.b1
  · exact and_bit5_eq t.b2
  · unfold ChunkType.is_safe_to_copy
    rw [show (1 <<< 5 : Nat) = 2 ^ 5 from rfl, Nat.and_two_pow]
    cases hb : t.b3.testBit 5 <;> simp

end Pngme
namespace Pngme

theorem chunk_new_length_eq (t : ChunkType) (d : List Nat) :
    (Chunk.new t d).length = d.length % 2 ^ 32 := rfl

/-- C4 counterexample: for a payload of `2^32` bytes, `Chunk::new` stores
`len(data) as u32`, which truncates, so the stored length differs from the
payload length. -/
theorem chunk_new_length_counterexample :
    (Chunk.new rustType (List.replicate (2 ^ 32) 0)).length ≠
      (List.replicate (2 ^ 32) (0 : Nat)).length := by
  rw [chunk_new_length_eq, List.length_replicate]
  norm_num

set_option maxRecDepth 10000 in
/-- C4 (amended): for payloads shorter than `2^32` bytes, `Chunk::new`
always succeeds with `length = len(d)`, type `t`, data `d` and the CRC-32
of type ++ data; its serialization is length BE ++ type ++ data ++ crc BE,
exactly `12 + length` bytes; the `"RuSt"` test vector yields length `42`
and crc `2882656334`. -/
theorem chunk_new_spec (t : ChunkType) (d : List Nat) (h : d.length < 2 ^ 32) :
    Chunk.new t d = ⟨d.length, t, d, crc32 (t.bytes ++ d)⟩ ∧
    (Chunk.new t d).asBytes =
      u32ToBeBytes d.length ++ t.bytes ++ d ++ u32ToBeBytes (crc32 (t.bytes ++ d)) ∧
    ((Chunk.new t d).asBytes).length = 12 + d.length ∧
    (Chunk.new rustType secretMessage).length = 42 ∧
    (Chunk.new rustType secretMessage).crc = 2882656334 := by
  have hmod : d.length % 2 ^ 32 = d.length := Nat.mod_eq_of_lt h
  refine ⟨?_, ?_, ?_, by decide, by decide⟩
  · simp [Chunk.new]
    omega
  · simp [Chunk.new, Chunk.asBytes]
    rw [show d.length % 4294967296 = d.length from by omega]
  · simp [Chunk.new, Chunk.asBytes, hmod, u32ToBeBytes, ChunkType.bytes]
    omega

set_option maxRecDepth 10000 in
theorem chunk_new_spec_witness :
    secretMessage.length < 2 ^ 32 ∧
    Chunk.new rustType secretMessage =
      ⟨secretMessage.length, rustType, secretMessage,
        crc32 (rustType.bytes ++ secretMessage)⟩ :=
  ⟨by decide, (chunk_new_spec rustType secretMessage (by decide)).1⟩

/-- C9: for any chunk type and byte payload of length at most `2^31 - 1`,
decoding the serialization of a freshly built chunk succeeds, consumes the
whole buffer, and returns a chunk equal to the original in every field. -/
theorem chunk_roundtrip (t : ChunkType) (d : List Nat)
    (ht : ∀ b ∈ t.bytes, b < 256) (hd : ∀ b ∈ d, b < 256)
    (hlen : d.length ≤ MAXIMUM_LENGTH) :
    decodeRaw (Chunk.new t d).asBytes = .ok (Chunk.new t d, []) := by
  obtain ⟨t0, t1, t2, t3⟩ := t
  have hby : ∀ b ∈ ([t0, t1, t2, t3] ++ d), b < 256 := by
    intro b hb
    rcases List.mem_append.mp hb with h | h
    · exact ht b h
    · exact hd b h
  have hcrc : crc32 (t0 :: t1 :: t2 :: t3 :: d) < 2 ^ 32 := crc32_lt hby
  have hlen32 : d.length < 2 ^ 32 := by
    have hm : MAXIMUM_LENGTH < 2 ^ 32 := by decide
    omega
  have hmod : d.length % 2 ^ 32 = d.length := Nat.mod_eq_of_lt hlen32
  have hfb : u32FromBe (d.length / 16777216 % 256) (d.length / 65536 % 256)
      (d.length / 256 % 256) (d.length % 256) = d.length := by
    simp only [u32FromBe]; omega
  have hfc : u32FromBe (crc32 (t0 :: t1 :: t2 :: t3 :: d) / 16777216 % 256)
      (crc32 (t0 :: t1 :: t2 :: t3 :: d) / 65536 % 256)
      (crc32 (t0 :: t1 :: t2 :: t3 :: d) / 256 % 256)
      (crc32 (t0 :: t1 :: t2 :: t3 :: d) % 256) =
      crc32 (t0 :: t1 :: t2 :: t3 :: d) := by
    simp only [u32FromBe]; omega
  simp only [Chunk.new, Chunk.asBytes, ChunkType.bytes, hmod, u32ToBeBytes,
    List.cons_append, List.nil_append]
  norm_num
  rw [decodeRaw_frame _ _ _ _ _ _ _ _ _ _ _ _ d []
    (by rw [hfb]) (by rw [hfb]; exact hlen)]
  rw [show ([t0, t1, t2, t3] ++ d) = t0 :: t1 :: t2 :: t3 :: d from rfl]
  rw [if_pos hfc]
  rw [hfb]

set_option maxRecDepth 10000 in
theorem chunk_roundtrip_witness :
    decodeRaw (Chunk.new rustType secretMessage).asBytes =
      .ok (Chunk.new rustType secretMessage, []) :=
  chunk_roundtrip rustType secretMessage (by decide) (by decide) (by decide)

end Pngme
namespace Pngme

theorem decodeRaw_ok_shape {bs : List Nat} {c : Chunk} {rest : List Nat}
    (h : decodeRaw bs = .ok (c, rest)) :
    ∃ l0 l1 l2 l3 c0 c1 c2 c3 : Nat,
      bs = l0 :: l1 :: l2 :: l3 ::
        (c.chunk_type.bytes ++ (c.chunk_data ++ c0 :: c1 :: c2 :: c3 :: rest)) ∧
      u32FromBe l0 l1 l2 l3 = c.length ∧
      u32FromBe c0 c1 c2 c3 = c.crc ∧
      c.chunk_data.length = c.length := by
  unfold decodeRaw at h
  cases hr1 : read4 bs with
  | error e => rw [hr1] at h; simp at h
  | ok v =>
  obtain ⟨⟨l0, l1, l2, l3⟩, r1⟩ := v
  rw [hr1] at h
  replace hr1 := read4_eq_ok.mp hr1
  simp only at h
  by_cases hmax : u32FromBe l0 l1 l2 l3 > MAXIMUM_LENGTH
  · rw [if_pos hmax] at h; simp at h
  rw [if_neg hmax] at h
  cases hr2 : read4 r1 with
  | error e => rw [hr2] at h; simp at h
  | ok v2 =>
  obtain ⟨⟨t0, t1, t2, t3⟩, r2⟩ := v2
  rw [hr2] at h
  replace hr2 := read4_eq_ok.mp hr2
  simp only [ChunkType.tryFromBytes] at h
  rw [readExact] at h
  by_cases hlen : r2.length < u32FromBe l0 l1 l2 l3
  · rw [if_pos hlen] at h; simp at h
  rw [if_neg hlen] at h
  simp only at h
  have htk : (r2.take (u32FromBe l0 l1 l2 l3)).length = u32FromBe l0 l1 l2 l3 := by
    simp [List.length_take]; omega
  rw [if_neg (by simp [htk] :
    ¬ ((r2.take (u32FromBe l0 l1 l2 l3)).length ≠ u32FromBe l0 l1 l2 l3))] at h
  cases hr3 : read4 (r2.drop (u32FromBe l0 l1 l2 l3)) with
  | error e => rw [hr3] at h; simp at h
  | ok v3 =>
  obtain ⟨⟨c0, c1, c2, c3⟩, r4⟩ := v3
  rw [hr3] at h
  replace hr3 := read4_eq_ok.mp hr3
  simp only at h
  by_cases hcrc : u32FromBe c0 c1 c2 c3 ≠
      crc32 ((ChunkType.mk t0 t1 t2 t3).bytes ++ r2.take (u32FromBe l0 l1 l2 l3))
  · rw [if_pos hcrc] at h; simp at h
  rw [if_neg hcrc] at h
  push_neg at hcrc
  simp only [Except.ok.injEq, Prod.mk.injEq] at h
  obtain ⟨hc, hrest⟩ := h
  subst hr1
  subst hr2
  subst hc
  subst hrest
  refine ⟨l0, l1, l2, l3, c0, c1, c2, c3, ?_, rfl, hcrc, htk⟩
  simp only [ChunkType.bytes, List.cons_append, List.cons.injEq, true_and]
  rw [← List.take_append_drop (u32FromBe l0 l1 l2 l3) r2, hr3]
  rw [List.nil_append, List.take_left' htk]

end Pngme
namespace Pngme

theorem decodeRaw_asBytes {bs : List Nat} {c : Chunk} {rest : List Nat}
    (hb : ∀ b ∈ bs, b < 256) (h : decodeRaw bs = .ok (c, rest)) :
    c.asBytes = bs.take (12 + c.length) := by
  obtain ⟨l0, l1, l2, l3, c0, c1, c2, c3, hbs, hlen, hcrc, hdlen⟩ := decodeRaw_ok_shape h
  have hl0 : l0 < 256 := hb _ (by rw [hbs]; simp)
  have hl1 : l1 < 256 := hb _ (by rw [hbs]; simp)
  have hl2 : l2 < 256 := hb _ (by rw [hbs]; simp)
  have hl3 : l3 < 256 := hb _ (by rw [hbs]; simp)
  have hc0 : c0 < 256 := hb _ (by rw [hbs]; simp)
  have hc1 : c1 < 256 := hb _ (by rw [hbs]; simp)
  have hc2 : c2 < 256 := hb _ (by rw [hbs]; simp)
  have hc3 : c3 < 256 := hb _ (by rw [hbs]; simp)
  have h1 : u32ToBeBytes c.length = [l0, l1, l2, l3] := by
    rw [← hlen, u32ToBeBytes_fromBe hl0 hl1 hl2 hl3]
  have h2 : u32ToBeBytes c.crc = [c0, c1, c2, c3] := by
    rw [← hcrc, u32ToBeBytes_fromBe hc0 hc1 hc2 hc3]
  have hsplit : l0 :: l1 :: l2 :: l3 ::
      (c.chunk_type.bytes ++ (c.chunk_data ++ c0 :: c1 :: c2 :: c3 :: rest)) =
      (l0 :: l1 :: l2 :: l3 ::
        (c.chunk_type.bytes ++ (c.chunk_data ++ [c0, c1, c2, c3]))) ++ rest := by
    simp [List.cons_append, List.append_assoc]
  have hplen : (l0 :: l1 :: l2 :: l3 ::
      (c.chunk_type.bytes ++ (c.chunk_data ++ [c0, c1, c2, c3]))).length =
      12 + c.length := by
    obtain ⟨t0, t1, t2, t3⟩ := c.chunk_type
    simp only [ChunkType.bytes, List.length_cons, List.length_append, List.length_cons,
      List.length_nil]
    omega
  rw [hbs, hsplit, List.take_left' hplen]
  unfold Chunk.asBytes
  rw [h1, h2]
  simp [List.cons_append, List.append_assoc]

end Pngme
namespace Pngme

theorem parseChunks_flatten :
    ∀ (n : Nat) (bs : List Nat) (cs : List Chunk), bs.length ≤ n →
      (∀ b ∈ bs, b < 256) → parseChunks bs = .ok cs →
      (cs.map Chunk.asBytes).flatten = bs := by
  intro n
  induction n with
  | zero =>
    intro bs cs hle hb h
    have hnil : bs = [] := List.length_eq_zero.mp (by omega)
    subst hnil
    rw [parseChunks] at h
    simp at h
    subst h
    simp
  | succ n ih =>
    intro bs cs hle hb h
    rw [parseChunks] at h
    split at h
    · rename_i hbs
      simp only [Except.ok.injEq] at h
      subst h
      subst hbs
      simp
    · rename_i hbs
      cases htf : Chunk.tryFrom bs with
      | error e => rw [htf] at h; simp at h
      | ok c =>
        rw [htf] at h
        simp only at h
        cases hp : parseChunks (bs.drop (12 + c.length)) with
        | error e => rw [hp] at h; simp at h
        | ok cs2 =>
          rw [hp] at h
          simp only [Except.ok.injEq] at h
          subst h
          obtain ⟨rest, hdec⟩ : ∃ rest, decodeRaw bs = .ok (c, rest) := by
            unfold Chunk.tryFrom at htf
            cases hd : decodeRaw bs with
            | error e => rw [hd] at htf; simp [Except.map] at htf
            | ok pr =>
              rw [hd] at htf
              simp only [Except.map, Except.ok.injEq] at htf
              exact ⟨pr.2, by rw [← htf]⟩
          have hspec := decodeRaw_ok_spec hdec
          have hab := decodeRaw_asBytes hb hdec
          have hb2 : ∀ b ∈ bs.drop (12 + c.length), b < 256 :=
            fun b hbm => hb b (List.mem_of_mem_drop hbm)
          have hlen2 : (bs.drop (12 + c.length)).length ≤ n := by
            simp only [List.length_drop]
            omega
          have ih2 := ih _ _ hlen2 hb2 hp
          simp only [List.map_cons, List.flatten_cons]
          rw [hab, ih2, List.take_append_drop]

end Pngme
namespace Pngme

/-- C1: for every container produced by `parse` from a byte buffer,
re-parsing its serialization yields the same container, and the
serialization is byte-identical to the original buffer. -/
theorem png_parse_roundtrip (bs : List Nat) (p : Png)
    (hb : ∀ b ∈ bs, b < 256) (h : Png.parse bs = .ok p) :
    Png.parse (Png.encode p) = .ok p ∧ Png.encode p = bs := by
  have hsig : bs.take 8 = pngSignature := by
    by_contra hns
    unfold Png.parse at h
    rw [if_neg hns] at h
    simp at h
  unfold Png.parse at h
  rw [if_pos hsig] at h
  cases hp : parseChunks (bs.drop 8) with
  | error e => rw [hp] at h; simp at h
  | ok cs =>
    rw [hp] at h
    simp only [Except.ok.injEq] at h
    subst h
    have hb8 : ∀ b ∈ bs.drop 8, b < 256 := fun b hbm => hb b (List.mem_of_mem_drop hbm)
    have henc : Png.encode ⟨cs⟩ = bs := by
      show pngSignature ++ (cs.map Chunk.asBytes).flatten = bs
      rw [parseChunks_flatten (bs.drop 8).length _ _ (le_refl _) hb8 hp]
      rw [← hsig]
      exact List.take_append_drop 8 bs
    refine ⟨?_, henc⟩
    rw [henc]
    unfold Png.parse
    rw [if_pos hsig, hp]

set_option maxRecDepth 10000 in
theorem png_parse_roundtrip_witness :
    Png.parse (Png.encode ⟨[rustChunk]⟩) = .ok ⟨[rustChunk]⟩ ∧
    Png.encode ⟨[rustChunk]⟩ = pngSignature ++ rustFrame :=
  png_parse_roundtrip (pngSignature ++ rustFrame) ⟨[rustChunk]⟩ (by decide)
    (by
      unfold Png.parse
      rw [if_pos (by decide : (pngSignature ++ rustFrame).take 8 = pngSignature)]
      rw [show (pngSignature ++ rustFrame).drop 8 = rustFrame from by decide]
      rw [parseChunks]
      rw [dif_neg (by decide : ¬ rustFrame = [])]
      rw [show Chunk.tryFrom rustFrame = .ok rustChunk from by decide]
      dsimp only
      rw [show rustFrame.drop (12 + rustChunk.length) = [] from by decide]
      rw [parseChunks]
      rfl)

end Pngme
namespace Pngme

theorem isUtf8Cont_true {b : Nat} (h1 : 0x80 ≤ b) (h2 : b ≤ 0xBF) :
    isUtf8Cont b = true := by
  simp only [isUtf8Cont, Bool.and_eq_true, decide_eq_true_eq]
  omega

theorem utf8Valid_encode (cps : List Nat) (h : ∀ cp ∈ cps, Utf8Scalar cp) :
    utf8Valid (utf8Encode cps) = true := by
  induction cps with
  | nil => rfl
  | cons cp cps ih =>
    obtain ⟨hlt, hsur⟩ := h cp (by simp)
    have ihr := ih (fun x hx => h x (by simp [hx]))
    show utf8Valid (utf8EncodeChar cp ++ utf8Encode cps) = true
    by_cases h1 : cp < 0x80
    · rw [utf8EncodeChar, if_pos h1]
      simp only [List.cons_append, List.nil_append]
      rw [utf8Valid, if_pos (by omega : cp ≤ 0x7F)]
      exact ihr
    by_cases h2 : cp < 0x800
    · rw [utf8EncodeChar, if_neg h1, if_pos h2]
      simp only [List.cons_append, List.nil_append]
      rw [utf8Valid]
      rw [if_neg (by omega : ¬ (0xC0 + cp / 64 ≤ 0x7F))]
      rw [if_pos (by simp only [Bool.and_eq_true, decide_eq_true_eq]; omega :
        (0xC2 ≤ 0xC0 + cp / 64 && 0xC0 + cp / 64 ≤ 0xDF) = true)]
      rw [utf8ValidTail1, isUtf8Cont_true (by omega) (by omega), ihr]
      rfl
    by_cases h3 : cp < 0x10000
    · rw [utf8EncodeChar, if_neg h1, if_neg h2, if_pos h3]
      simp only [List.cons_append, List.nil_append]
      rw [utf8Valid]
      rw [if_neg (by omega : ¬ (0xE0 + cp / 4096 ≤ 0x7F))]
      rw [if_neg (by simp only [Bool.and_eq_true, decide_eq_true_eq]; omega :
        ¬ ((0xC2 ≤ 0xE0 + cp / 4096 && 0xE0 + cp / 4096 ≤ 0xDF) = true))]
      rw [if_pos (by simp only [Bool.and_eq_true, decide_eq_true_eq]; omega :
        (0xE0 ≤ 0xE0 + cp / 4096 && 0xE0 + cp / 4096 ≤ 0xEF) = true)]
      rw [utf8ValidTail2]
      rw [isUtf8Cont_true (b := 0x80 + cp % 64) (by omega) (by omega), ihr]
      by_cases hb0 : cp < 0x1000
      · rw [if_pos (by omega : 0xE0 + cp / 4096 = 0xE0)]
        simp only [Bool.and_eq_true, decide_eq_true_eq, Bool.and_true]
        constructor <;> omega
      by_cases hbd : 0xD000 ≤ cp ∧ cp < 0xE000
      · rw [if_neg (by omega : ¬ (0xE0 + cp / 4096 = 0xE0))]
        rw [if_pos (by omega : 0xE0 + cp / 4096 = 0xED)]
        simp only [Bool.and_eq_true, decide_eq_true_eq, Bool.and_true]
        constructor <;> omega
      · rw [if_neg (by omega : ¬ (0xE0 + cp / 4096 = 0xE0))]
        rw [if_neg (by omega : ¬ (0xE0 + cp / 4096 = 0xED))]
        rw [isUtf8Cont_true (by omega) (by omega)]
        rfl
    · rw [utf8EncodeChar, if_neg h1, if_neg h2, if_neg h3]
      simp only [List.cons_append, List.nil_append]
      rw [utf8Valid]
      rw [if_neg (by omega : ¬ (0xF0 + cp / 262144 ≤ 0x7F))]
      rw [if_neg (by simp only [Bool.and_eq_true, decide_eq_true_eq]; omega :
        ¬ ((0xC2 ≤ 0xF0 + cp / 262144 && 0xF0 + cp / 262144 ≤ 0xDF) = true))]
      rw [if_neg (by simp only [Bool.and_eq_true, decide_eq_true_eq]; omega :
        ¬ ((0xE0 ≤ 0xF0 + cp / 262144 && 0xF0 + cp / 262144 ≤ 0xEF) = true))]
      rw [if_pos (by simp only [Bool.and_eq_true, decide_eq_true_eq]; omega :
        (0xF0 ≤ 0xF0 + cp / 262144 && 0xF0 + cp / 262144 ≤ 0xF4) = true)]
      rw [utf8ValidTail3]
      rw [isUtf8Cont_true (b := 0x80 + cp / 64 % 64) (by omega) (by omega)]
      rw [isUtf8Cont_true (b := 0x80 + cp % 64) (by omega) (by omega), ihr]
      by_cases hb0 : cp < 0x40000
      · rw [if_pos (by omega : 0xF0 + cp / 262144 = 0xF0)]
        simp only [Bool.and_eq_true, decide_eq_true_eq, Bool.and_true]
        constructor <;> omega
      by_cases hb4 : 0x100000 ≤ cp
      · rw [if_neg (by omega : ¬ (0xF0 + cp / 262144 = 0xF0))]
        rw [if_pos (by omega : 0xF0 + cp / 262144 = 0xF4)]
        simp only [Bool.and_eq_true, decide_eq_true_eq, Bool.and_true]
        constructor <;> omega
      · rw [if_neg (by omega : ¬ (0xF0 + cp / 262144 = 0xF0))]
        rw [if_neg (by omega : ¬ (0xF0 + cp / 262144 = 0xF4))]
        rw [isUtf8Cont_true (by omega) (by omega)]
        rfl

end Pngme
namespace Pngme

set_option maxRecDepth 10000 in
theorem utf8Valid_sound :
    ∀ (n : Nat) (bs : List Nat), bs.length ≤ n → utf8Valid bs = true →
      ∃ cps, (∀ cp ∈ cps, Utf8Scalar cp) ∧ utf8Encode cps = bs := by
  intro n
  induction n with
  | zero =>
    intro bs hle _
    have hnil : bs = [] := List.length_eq_zero.mp (by omega)
    subst hnil
    exact ⟨[], by simp, rfl⟩
  | succ n ih =>
    intro bs hle hv
    rcases bs with _ | ⟨b, rest⟩
    · exact ⟨[], by simp, rfl⟩
    simp only [List.length_cons] at hle
    rw [utf8Valid] at hv
    by_cases h1 : b ≤ 0x7F
    · rw [if_pos h1] at hv
      obtain ⟨cps, hs, he⟩ := ih rest (by omega) hv
      refine ⟨b :: cps, ?_, ?_⟩
      · intro cp hcp
        rcases List.mem_cons.mp hcp with rfl | hm
        · exact ⟨by omega, by omega⟩
        · exact hs cp hm
      · show utf8EncodeChar b ++ utf8Encode cps = b :: rest
        rw [utf8EncodeChar, if_pos (by omega : b < 0x80), he]
        rfl
    rw [if_neg h1] at hv
    by_cases h2 : (0xC2 ≤ b && b ≤ 0xDF) = true
    · rw [if_pos h2] at hv
      simp only [Bool.and_eq_true, decide_eq_true_eq] at h2
      rcases rest with _ | ⟨c1, r⟩
      · rw [show utf8ValidTail1 [] = false from rfl] at hv
        exact absurd hv (by simp)
      rw [utf8ValidTail1, Bool.and_eq_true] at hv
      obtain ⟨hc1, hvr⟩ := hv
      simp only [isUtf8Cont, Bool.and_eq_true, decide_eq_true_eq] at hc1
      simp only [List.length_cons] at hle
      obtain ⟨cps, hs, he⟩ := ih r (by omega) hvr
      refine ⟨((b - 0xC0) * 64 + (c1 - 0x80)) :: cps, ?_, ?_⟩
      · intro cp hcp
        rcases List.mem_cons.mp hcp with rfl | hm
        · exact ⟨by omega, by omega⟩
        · exact hs cp hm
      · show utf8EncodeChar _ ++ utf8Encode cps = b :: c1 :: r
        rw [utf8EncodeChar]
        rw [if_neg (by omega : ¬ ((b - 0xC0) * 64 + (c1 - 0x80) < 0x80))]
        rw [if_pos (by omega : (b - 0xC0) * 64 + (c1 - 0x80) < 0x800)]
        rw [show 0xC0 + ((b - 0xC0) * 64 + (c1 - 0x80)) / 64 = b from by omega]
        rw [show 0x80 + ((b - 0xC0) * 64 + (c1 - 0x80)) % 64 = c1 from by omega]
        rw [he]
        rfl
    rw [if_neg h2] at hv
    by_cases h3 : (0xE0 ≤ b && b ≤ 0xEF) = true
    · rw [if_pos h3] at hv
      simp only [Bool.and_eq_true, decide_eq_true_eq] at h3
      rcases rest with _ | ⟨c1, _ | ⟨c2, r⟩⟩
      · rw [show utf8ValidTail2 b [] = false from rfl] at hv
        exact absurd hv (by simp)
      · rw [show utf8ValidTail2 b [c1] = false from rfl] at hv
        exact absurd hv (by simp)
      rw [utf8ValidTail2] at hv
      simp only [Bool.and_eq_true] at hv
      obtain ⟨⟨hfirst, hc2⟩, hvr⟩ := hv
      simp only [isUtf8Cont, Bool.and_eq_true, decide_eq_true_eq] at hc2
      have hcases : (b = 0xE0 ∧ 0xA0 ≤ c1 ∧ c1 ≤ 0xBF) ∨
          (b = 0xED ∧ 0x80 ≤ c1 ∧ c1 ≤ 0x9F) ∨
          (¬ b = 0xE0 ∧ ¬ b = 0xED ∧ 0x80 ≤ c1 ∧ c1 ≤ 0xBF) := by
        by_cases hb0 : b = 0xE0
        · rw [if_pos hb0] at hfirst
          simp only [Bool.and_eq_true, decide_eq_true_eq] at hfirst
          exact Or.inl ⟨hb0, hfirst⟩
        rw [if_neg hb0] at hfirst
        by_cases hbd : b = 0xED
        · rw [if_pos hbd] at hfirst
          simp only [Bool.and_eq_true, decide_eq_true_eq] at hfirst
          exact Or.inr (Or.inl ⟨hbd, hfirst⟩)
        rw [if_neg hbd] at hfirst
        simp only [isUtf8Cont, Bool.and_eq_true, decide_eq_true_eq] at hfirst
        exact Or.inr (Or.inr ⟨hb0, hbd, hfirst⟩)
      simp only [List.length_cons] at hle
      obtain ⟨cps, hs, he⟩ := ih r (by omega) hvr
      refine ⟨((b - 0xE0) * 4096 + (c1 - 0x80) * 64 + (c2 - 0x80)) :: cps, ?_, ?_⟩
      · intro cp hcp
        rcases List.mem_cons.mp hcp with rfl | hm
        · exact ⟨by omega, by omega⟩
        · exact hs cp hm
      · show utf8EncodeChar _ ++ utf8Encode cps = b :: c1 :: c2 :: r
        rw [utf8EncodeChar]
        rw [if_neg (by omega :
          ¬ ((b - 0xE0) * 4096 + (c1 - 0x80) * 64 + (c2 - 0x80) < 0x80))]
        rw [if_neg (by omega :
          ¬ ((b - 0xE0) * 4096 + (c1 - 0x80) * 64 + (c2 - 0x80) < 0x800))]
        rw [if_pos (by omega :
          (b - 0xE0) * 4096 + (c1 - 0x80) * 64 + (c2 - 0x80) < 0x10000)]
        rw [show 0xE0 + ((b - 0xE0) * 4096 + (c1 - 0x80) * 64 + (c2 - 0x80)) / 4096 = b
          from by omega]
        rw [show 0x80 + ((b - 0xE0) * 4096 + (c1 - 0x80) * 64 + (c2 - 0x80)) / 64 % 64 = c1
          from by omega]
        rw [show 0x80 + ((b - 0xE0) * 4096 + (c1 - 0x80) * 64 + (c2 - 0x80)) % 64 = c2
          from by omega]
        rw [he]
        rfl
    rw [if_neg h3] at hv
    by_cases h4 : (0xF0 ≤ b && b ≤ 0xF4) = true
    · rw [if_pos h4] at hv
      simp only [Bool.and_eq_true, decide_eq_true_eq] at h4
      rcases rest with _ | ⟨c1, _ | ⟨c2, _ | ⟨c3, r⟩⟩⟩
      · rw [show utf8ValidTail3 b [] = false from rfl] at hv
        exact absurd hv (by simp)
      · rw [show utf8ValidTail3 b [c1] = false from rfl] at hv
        exact absurd hv (by simp)
      · rw [show utf8ValidTail3 b [c1, c2] = false from rfl] at hv
        exact absurd hv (by simp)
      rw [utf8ValidTail3] at hv
      simp only [Bool.and_eq_true] at hv
      obtain ⟨⟨⟨hfirst, hc2⟩, hc3⟩, hvr⟩ := hv
      simp only [isUtf8Cont, Bool.and_eq_true, decide_eq_true_eq] at hc2 hc3
      have hcases : (b = 0xF0 ∧ 0x90 ≤ c1 ∧ c1 ≤ 0xBF) ∨
          (b = 0xF4 ∧ 0x80 ≤ c1 ∧ c1 ≤ 0x8F) ∨
          (¬ b = 0xF0 ∧ ¬ b = 0xF4 ∧ 0x80 ≤ c1 ∧ c1 ≤ 0xBF) := by
        by_cases hb0 : b = 0xF0
        · rw [if_pos hb0] at hfirst
          simp only [Bool.and_eq_true, decide_eq_true_eq] at hfirst
          exact Or.inl ⟨hb0, hfirst⟩
        rw [if_neg hb0] at hfirst
        by_cases hb4 : b = 0xF4
        · rw [if_pos hb4] at hfirst
          simp only [Bool.and_eq_true, decide_eq_true_eq] at hfirst
          exact Or.inr (Or.inl ⟨hb4, hfirst⟩)
        rw [if_neg hb4] at hfirst
        simp only [isUtf8Cont, Bool.and_eq_true, decide_eq_true_eq] at hfirst
        exact Or.inr (Or.inr ⟨hb0, hb4, hfirst⟩)
      simp only [List.length_cons] at hle
      obtain ⟨cps, hs, he⟩ := ih r (by omega) hvr
      refine ⟨((b - 0xF0) * 262144 + (c1 - 0x80) * 4096 +
        (c2 - 0x80) * 64 + (c3 - 0x80)) :: cps, ?_, ?_⟩
      · intro cp hcp
        rcases List.mem_cons.mp hcp with rfl | hm
        · exact ⟨by omega, by omega⟩
        · exact hs cp hm
      · show utf8EncodeChar _ ++ utf8Encode cps = b :: c1 :: c2 :: c3 :: r
        rw [utf8EncodeChar]
        rw [if_neg (by omega : ¬ ((b - 0xF0) * 262144 + (c1 - 0x80) * 4096 +
          (c2 - 0x80) * 64 + (c3 - 0x80) < 0x80))]
        rw [if_neg (by omega : ¬ ((b - 0xF0) * 262144 + (c1 - 0x80) * 4096 +
          (c2 - 0x80) * 64 + (c3 - 0x80) < 0x800))]
        rw [if_neg (by omega : ¬ ((b - 0xF0) * 262144 + (c1 - 0x80) * 4096 +
          (c2 - 0x80) * 64 + (c3 - 0x80) < 0x10000))]
        rw [show 0xF0 + ((b - 0xF0) * 262144 + (c1 - 0x80) * 4096 +
          (c2 - 0x80) * 64 + (c3 - 0x80)) / 262144 = b from by omega]
        rw [show 0x80 + ((b - 0xF0) * 262144 + (c1 - 0x80) * 4096 +
          (c2 - 0x80) * 64 + (c3 - 0x80)) / 4096 % 64 = c1 from by omega]
        rw [show 0x80 + ((b - 0xF0) * 262144 + (c1 - 0x80) * 4096 +
          (c2 - 0x80) * 64 + (c3 - 0x80)) / 64 % 64 = c2 from by omega]
        rw [show 0x80 + ((b - 0xF0) * 262144 + (c1 - 0x80) * 4096 +
          (c2 - 0x80) * 64 + (c3 - 0x80)) % 64 = c3 from by omega]
        rw [he]
        rfl
    rw [if_neg h4] at hv
    exact absurd hv (by simp)

end Pngme
namespace Pngme

set_option maxRecDepth 10000 in
/-- C10: formatting a chunk for display (which evaluates
`data_as_string().unwrap()`, modelled as `none` on panic) completes
without panicking exactly when the payload is the UTF-8 encoding of a
sequence of Unicode scalar values; a chunk with the non-UTF-8 payload
`[255]` panics, the test-vector chunk does not. -/
theorem chunk_display_total_iff_utf8 :
    (∀ c : Chunk, (c.displayFmt ≠ none ↔
      ∃ cps, (∀ cp ∈ cps, Utf8Scalar cp) ∧ utf8Encode cps = c.chunk_data)) ∧
    Chunk.displayFmt ⟨1, rustType, [255], 0⟩ = none ∧
    Chunk.displayFmt rustChunk ≠ none := by
  refine ⟨?_, by decide, by decide⟩
  intro c
  unfold Chunk.displayFmt Chunk.data_as_string
  by_cases hv : utf8Valid c.chunk_data = true
  · rw [if_pos hv]
    constructor
    · intro _
      exact utf8Valid_sound c.chunk_data.length c.chunk_data (le_refl _) hv
    · intro _
      simp
  · rw [if_neg hv]
    constructor
    · intro h
      exact absurd rfl h
    · rintro ⟨cps, hs, he⟩
      exact absurd (he ▸ utf8Valid_encode cps hs) hv

end Pngme
